import Mathlib

/-!
Verification of the GeoGridTrainer normalization and export pipeline
(`scripts/geogrid_fetch_and_build.py`).

The development shallowly embeds the pure computational core of the script:
JSON values are modelled by an inductive type, Python dicts by ordered
association lists, Python strings by Lean strings (character lists), and the
stateful loops by explicit accumulator-passing recursion.  Machine reals never
occur with values that are inexact in the claims' range; the one float
computation (the rarity percentile) is modelled by exact integer arithmetic on
the numerator/denominator of the same fraction, with Python's banker's
rounding implemented explicitly.
-/

namespace GeoGrid

/-! ### Python string primitives -/

/-- Characters treated as whitespace by Python `str.strip` / `str.split`
(ASCII subset; the data handled by the script contains only these). -/
def isSpaceChar (c : Char) : Bool :=
  c = ' ' || c = '\t' || c = '\n' || c = '\r' || c = Char.ofNat 11 || c = Char.ofNat 12

/-- Python `s.strip()`. -/
def pyStrip (s : String) : String :=
  String.mk (((s.toList.dropWhile isSpaceChar).reverse.dropWhile isSpaceChar).reverse)

/-- Python `s.lower()` (ASCII lowercasing; every non-ASCII character appearing
in the script's name data is already lowercase, where Python agrees). -/
def pyLower (s : String) : String :=
  String.mk (s.toList.map Char.toLower)

/-- Helper for Python `s.split()`: cut a character list at whitespace runs,
dropping empty fragments.  `acc` holds the current word reversed. -/
def splitWordsAux : List Char → List Char → List (List Char)
  | [], acc => if acc.isEmpty then [] else [acc.reverse]
  | c :: cs, acc =>
    if isSpaceChar c then
      if acc.isEmpty then splitWordsAux cs []
      else acc.reverse :: splitWordsAux cs []
    else splitWordsAux cs (c :: acc)

/-- Python `" ".join(s.split())`: collapse internal whitespace runs to one
space (and drop leading/trailing whitespace). -/
def pySplitJoin (s : String) : String :=
  String.intercalate " " ((splitWordsAux s.toList []).map String.mk)

/-- Python `s.replace("’", "'")`: the right single quotation mark U+2019 is
replaced by the ASCII apostrophe U+0027 (a one-character substring
replacement, hence a character map). -/
def replaceRightQuote (s : String) : String :=
  String.mk (s.toList.map (fun c => if c = Char.ofNat 0x2019 then Char.ofNat 39 else c))

/-- Python `s.startswith(p)`. -/
def strStartsWith (s p : String) : Bool :=
  p.toList.isPrefixOf s.toList

/-- Python `s.split("_")`: cut at every underscore, keeping empty fragments.
`acc` holds the current fragment reversed. -/
def splitUnderscoreAux : List Char → List Char → List String
  | [], acc => [String.mk acc.reverse]
  | c :: cs, acc =>
    if c = '_' then String.mk acc.reverse :: splitUnderscoreAux cs []
    else splitUnderscoreAux cs (c :: acc)

/-- Python `s.split("_")[-1]`: the segment after the last underscore. -/
def lastUnderscoreSegment (s : String) : String :=
  (splitUnderscoreAux s.toList []).getLastD ""

/-- Python `dict.get` over an association list holding the dict's entries in
insertion order (the dicts built by the script never hold duplicate keys, so
first match and last match agree). -/
def lookup? {α : Type} (k : String) : List (String × α) → Option α
  | [] => none
  | (k2, v) :: rest => if k2 = k then some v else lookup? k rest

/-! ### Code-point lexicographic order on strings (Python `<=` on `str`) -/

/-- Lexicographic comparison of character lists by code point, the order
Python uses to compare strings. -/
def listCharLe : List Char → List Char → Bool
  | [], _ => true
  | _ :: _, [] => false
  | a :: as, b :: bs =>
    if a.toNat < b.toNat then true
    else if b.toNat < a.toNat then false
    else listCharLe as bs

/-- Python `a <= b` on strings. -/
def strLe (a b : String) : Bool := listCharLe a.toList b.toList

/-- `strLe` as a relation, for use with `List.insertionSort`. -/
def strRel (a b : String) : Prop := strLe a b = true

instance : DecidableRel strRel := fun a b => by unfold strRel; infer_instance

theorem listCharLe_total (a b : List Char) : listCharLe a b = true ∨ listCharLe b a = true := by
  induction a generalizing b with
  | nil => left; rfl
  | cons x xs ih =>
    cases b with
    | nil => right; rfl
    | cons y ys =>
      rcases Nat.lt_trichotomy x.toNat y.toNat with hxy | hxy | hxy
      · left; simp [listCharLe, hxy]
      · have h1 : ¬ x.toNat < y.toNat := by omega
        have h2 : ¬ y.toNat < x.toNat := by omega
        rcases ih ys with h | h
        · left; simp [listCharLe, h1, h2, h]
        · right; simp [listCharLe, h1, h2, h]
      · right; simp [listCharLe, hxy]

theorem listCharLe_trans {a b c : List Char} (hab : listCharLe a b = true)
    (hbc : listCharLe b c = true) : listCharLe a c = true := by
  induction a generalizing b c with
  | nil => rfl
  | cons x xs ih =>
    cases b with
    | nil => simp [listCharLe] at hab
    | cons y ys =>
      cases c with
      | nil => simp [listCharLe] at hbc
      | cons z zs =>
        simp only [listCharLe] at hab hbc ⊢
        rcases Nat.lt_trichotomy x.toNat y.toNat with hxy | hxy | hxy
        · rcases Nat.lt_trichotomy y.toNat z.toNat with hyz | hyz | hyz
          · simp [Nat.lt_trans hxy hyz]
          · simp [hyz ▸ hxy]
          · have g1 : ¬ y.toNat < z.toNat := by omega
            simp [g1, hyz] at hbc
        · have h1 : ¬ x.toNat < y.toNat := by omega
          have h2 : ¬ y.toNat < x.toNat := by omega
          simp [h1, h2] at hab
          rcases Nat.lt_trichotomy y.toNat z.toNat with hyz | hyz | hyz
          · simp [hxy ▸ hyz]
          · have g1 : ¬ x.toNat < z.toNat := by omega
            have g2 : ¬ z.toNat < x.toNat := by omega
            have k1 : ¬ y.toNat < z.toNat := by omega
            have k2 : ¬ z.toNat < y.toNat := by omega
            simp [k1, k2] at hbc
            simp [g1, g2, ih hab hbc]
          · have g1 : ¬ y.toNat < z.toNat := by omega
            simp [g1, hyz] at hbc
        · have g1 : ¬ x.toNat < y.toNat := by omega
          simp [g1, hxy] at hab

theorem listCharLe_antisymm {a b : List Char} (hab : listCharLe a b = true)
    (hba : listCharLe b a = true) : a = b := by
  induction a generalizing b with
  | nil =>
    cases b with
    | nil => rfl
    | cons y ys => simp [listCharLe] at hba
  | cons x xs ih =>
    cases b with
    | nil => simp [listCharLe] at hab
    | cons y ys =>
      simp only [listCharLe] at hab hba
      rcases Nat.lt_trichotomy x.toNat y.toNat with hxy | hxy | hxy
      · have h1 : ¬ y.toNat < x.toNat := by omega
        simp [h1, hxy] at hba
      · have h1 : ¬ x.toNat < y.toNat := by omega
        have h2 : ¬ y.toNat < x.toNat := by omega
        simp [h1, h2] at hab hba
        have hchar : x = y := by
          have h3 := congrArg Char.ofNat hxy
          rwa [Char.ofNat_toNat, Char.ofNat_toNat] at h3
        rw [hchar, ih hab hba]
      · have h1 : ¬ x.toNat < y.toNat := by omega
        simp [h1, hxy] at hab

instance : IsTotal String strRel :=
  ⟨fun a b => listCharLe_total a.toList b.toList⟩

instance : IsTrans String strRel :=
  ⟨fun _ _ _ hab hbc => listCharLe_trans hab hbc⟩

theorem strLe_antisymm {a b : String} (hab : strLe a b = true) (hba : strLe b a = true) :
    a = b := by
  have h := listCharLe_antisymm hab hba
  cases a; cases b
  simpa [String.toList] using congrArg String.mk h

/-! ### JSON values (the `Any` universe the script's pure functions range over) -/

/-- JSON-compatible values: `None`, `bool`, `int`, `str`, `list`, `dict`.
Dicts are ordered association lists, as Python dicts preserve insertion
order.  (Floats do not occur in the values the verified claims evaluate.) -/
inductive JVal where
  | null
  | jbool (b : Bool)
  | jnum (n : Int)
  | jstr (s : String)
  | jarr (xs : List JVal)
  | jobj (kvs : List (String × JVal))

/-- `is_primitive(val)`: `val is None or isinstance(val, (str, int, float, bool))`. -/
def is_primitive : JVal → Bool
  | .null | .jbool _ | .jnum _ | .jstr _ => true
  | .jarr _ | .jobj _ => false

/-- JSON string escaping as performed by `json.dumps(..., ensure_ascii=False)`:
quote, backslash and control characters are escaped, everything else is
emitted verbatim. -/
def escapeChar (c : Char) : String :=
  if c = Char.ofNat 34 then "\\\""
  else if c = Char.ofNat 92 then "\\\\"
  else if c = '\n' then "\\n"
  else if c = '\r' then "\\r"
  else if c = '\t' then "\\t"
  else if c = Char.ofNat 8 then "\\b"
  else if c = Char.ofNat 12 then "\\f"
  else if c.toNat < 32 then
    "\\u00" ++ String.mk [hexDigit (c.toNat / 16), hexDigit (c.toNat % 16)]
  else String.mk [c]
where
  hexDigit (n : Nat) : Char :=
    if n < 10 then Char.ofNat (48 + n) else Char.ofNat (87 + n)

def escapeString (s : String) : String :=
  String.join (s.toList.map escapeChar)

/-- Ordering of already-encoded object entries by raw key, the order produced
by `json.dumps(..., sort_keys=True)` (keys of a Python dict are distinct, so
comparing keys alone determines the order). -/
def pairKeyRel (a b : String × String) : Prop := strLe a.1 b.1 = true

instance : DecidableRel pairKeyRel := fun a b => by unfold pairKeyRel; infer_instance

instance : IsTotal (String × String) pairKeyRel :=
  ⟨fun a b => listCharLe_total a.1.toList b.1.toList⟩

instance : IsTrans (String × String) pairKeyRel :=
  ⟨fun _ _ _ hab hbc => listCharLe_trans hab hbc⟩

/-- Join of sorted, already-encoded object entries with `(",", ":")`
separators, quoting and escaping each key. -/
def encEntries : List (String × String) → String
  | [] => ""
  | [(k, v)] => "\"" ++ escapeString k ++ "\":" ++ v
  | (k, v) :: rest => "\"" ++ escapeString k ++ "\":" ++ v ++ "," ++ encEntries rest

mutual
/-- `json_dumps_stable(val)`:
`json.dumps(val, ensure_ascii=False, sort_keys=True, separators=(",", ":"))`.
Object entries are encoded in insertion order by `encPairs`, then sorted by
key and joined — the same canonical string `sort_keys=True` produces. -/
def json_dumps_stable : JVal → String
  | .null => "null"
  | .jbool true => "true"
  | .jbool false => "false"
  | .jnum n => toString n
  | .jstr s => "\"" ++ escapeString s ++ "\""
  | .jarr xs => "[" ++ encItems xs ++ "]"
  | .jobj kvs => "\x7b" ++ encEntries (List.insertionSort pairKeyRel (encPairs kvs)) ++ "\x7d"

/-- Array items joined with `","`. -/
def encItems : List JVal → String
  | [] => ""
  | [x] => json_dumps_stable x
  | x :: y :: xs => json_dumps_stable x ++ "," ++ encItems (y :: xs)

/-- Encode each object entry's value, keeping the raw key. -/
def encPairs : List (String × JVal) → List (String × String)
  | [] => []
  | (k, v) :: rest => (k, json_dumps_stable v) :: encPairs rest
end

/-! ### Python dict assignment and the document flattener -/

/-- Python `m[k] = v` on an insertion-ordered dict: an existing key keeps its
position and gets the new value, a new key is appended. -/
def dictSet (m : List (String × JVal)) (k : String) (v : JVal) : List (String × JVal) :=
  if m.any (fun p => p.1 = k) then m.map (fun p => if p.1 = k then (k, v) else p)
  else m ++ [(k, v)]

mutual
/-- The loop of `flatten_for_csv(obj, prefix)` with the dict `out` threaded
explicitly: for each entry, compute the (prefixed) key and dispatch on the
value's shape. -/
def flatten_aux : List (String × JVal) → String → List (String × JVal) → List (String × JVal)
  | [], _, out => out
  | (k, v) :: rest, pre, out =>
    let key := if pre = "" then k else pre ++ "__" ++ k
    flatten_aux rest pre (flattenVal v key out)

/-- One iteration of the `flatten_for_csv` loop body: primitives are copied
through, a nested dict is stored as its stable JSON string and additionally
recursively flattened (only primitive-valued descendants are merged back,
which after encoding is all of them), and a list is stored only as its stable
JSON string. -/
def flattenVal : JVal → String → List (String × JVal) → List (String × JVal)
  | .jobj kvs, key, out =>
    ((flatten_aux kvs key []).filter (fun p => is_primitive p.2)).foldl
      (fun acc p => dictSet acc p.1 p.2)
      (dictSet out key (.jstr (json_dumps_stable (.jobj kvs))))
  | .jarr xs, key, out => dictSet out key (.jstr (json_dumps_stable (.jarr xs)))
  | v, key, out => dictSet out key v
end

/-- `flatten_for_csv(obj, prefix="")` starting from an empty output dict. -/
def flatten_for_csv (obj : List (String × JVal)) (pre : String) : List (String × JVal) :=
  flatten_aux obj pre []

/-! ### `sorted(set(xs))` on strings -/

/-- Python `sorted(set(xs))` for a list of strings: the sorted list of the
distinct elements. -/
def sortedDedup (xs : List String) : List String :=
  List.insertionSort strRel xs.dedup

theorem sortedDedup_sorted (xs : List String) : List.Sorted strRel (sortedDedup xs) :=
  List.sorted_insertionSort strRel xs.dedup

theorem sortedDedup_nodup (xs : List String) : (sortedDedup xs).Nodup :=
  ((List.perm_insertionSort strRel xs.dedup).symm).nodup (List.nodup_dedup xs)

theorem mem_sortedDedup (xs : List String) (a : String) : a ∈ sortedDedup xs ↔ a ∈ xs := by
  unfold sortedDedup
  rw [(List.perm_insertionSort strRel xs.dedup).mem_iff, List.mem_dedup]

/-! ### Name normalization and the historical-alias table -/

/-- The `norm` helper of `build_name_to_code_maps` and the normalization part
of `norm_country_name`: `s.strip().lower().replace("’", "'")` followed by
`" ".join(s.split())`. -/
def normName (s : String) : String :=
  pySplitJoin (replaceRightQuote (pyLower (pyStrip s)))

/-- The keys of the static alias dict in `update_old_names_to_match_cdn`. -/
def old_name_keys : List String :=
  ["Ivory Coast", "Aland Islands", "East Timor", "Micronesia", "Guernsey",
   "Cape Verde", "Reunion", "Curacao", "Saint Barthelemy", "Sao Tome and Principe"]

/-- `update_old_names_to_match_cdn(name)`: `mapping.get(name, name)` over the
fixed ten-entry alias dict (exact, case-sensitive key match). -/
def update_old_names_to_match_cdn (name : String) : String :=
  if name = "Ivory Coast" then "Côte d\u0027Ivoire"
  else if name = "Aland Islands" then "Åland"
  else if name = "East Timor" then "Timor-Leste"
  else if name = "Micronesia" then "Federated States of Micronesia"
  else if name = "Guernsey" then "Bailiwick of Guernsey"
  else if name = "Cape Verde" then "Cabo Verde"
  else if name = "Reunion" then "Réunion"
  else if name = "Curacao" then "Curaçao"
  else if name = "Saint Barthelemy" then "Saint Barthélemy"
  else if name = "Sao Tome and Principe" then "São Tomé and Príncipe"
  else name

/-- `norm_country_name(s)` (the helper in `export_csvs`): apply the
historical-alias correction, then the same normalization the index builder
uses. -/
def norm_country_name (s : String) : String :=
  normName (update_old_names_to_match_cdn s)

/-! ### The reference entity list and the name→code index -/

/-- One entry of `common/countries.json` as consumed by
`build_name_to_code_maps`: a `code` (absent or non-string modelled as
`none`), an optional default `name`, and the multilingual `names` dict
(string values, in insertion order). -/
structure CommonCountry where
  code : Option String
  name : Option String
  names : List (String × String)

/-- The candidate display strings of one entity, in processing order: the
default name (when it is a string) followed by every translation value. -/
def countryCandidates (c : CommonCountry) : List String :=
  (match c.name with | some s => [s] | none => []) ++ c.names.map Prod.snd

/-- The body of the candidate loop in `build_name_to_code_maps`: normalize
the raw candidate, skip it when the normalization is empty, and insert the
`(normalized, code)` pair only when the normalized string is not yet a key
(skipping the overwrite on collision). -/
def insertCandidate (code : String) (m : List (String × String)) (raw : String) :
    List (String × String) :=
  let n := normName raw
  if n = "" then m
  else if m.any (fun p => p.1 = n) then m
  else m ++ [(n, code)]

/-- The body of the entity loop in `build_name_to_code_maps`: entities with a
falsy code are skipped, the rest contribute all their candidates. -/
def insertCountry (acc : List (String × String)) (c : CommonCountry) :
    List (String × String) :=
  match c.code with
  | none => acc
  | some code =>
    if code = "" then acc
    else (countryCandidates c).foldl (insertCandidate code) acc

/-- The `name_to_code` side of `build_name_to_code_maps(common_countries)`:
for each entity with a truthy code, normalize the default name followed by
every translation, skip empty normalizations, and insert the pair only if the
normalized string is not yet a key (first-seen entity wins). -/
def build_name_to_code (common_countries : List CommonCountry) : List (String × String) :=
  common_countries.foldl insertCountry []

/-- The `(normalized candidate, code)` pairs one entity feeds into the index,
in processing order, with falsy codes and empty normalizations skipped. -/
def countryPairs (c : CommonCountry) : List (String × String) :=
  match c.code with
  | none => []
  | some code =>
    if code = "" then []
    else ((countryCandidates c).map (fun raw => (normName raw, code))).filter
      (fun p => ¬ p.1 = "")

/-- The flat sequence of `(normalized candidate, code)` pairs in the exact
order `build_name_to_code_maps` processes them (entities in list order, the
default name before the translations).  Used to state the first-seen-wins
property: the index looks up exactly like this sequence's first match. -/
def candidate_pairs (cs : List CommonCountry) : List (String × String) :=
  cs.flatMap countryPairs

/-! ### Board cell processing -/

/-- Python `int(text)` for the strings the board keys can produce: optional
surrounding whitespace, an optional sign, then a digit sequence optionally
grouped by single underscores. -/
def parseDigitGroupsAux : List Char → Nat → Option Nat
  | [], acc => some acc
  | [c], acc => if c.isDigit then some (acc * 10 + (c.toNat - 48)) else none
  | c :: d :: cs, acc =>
    if c.isDigit then parseDigitGroupsAux (d :: cs) (acc * 10 + (c.toNat - 48))
    else if c = '_' then
      if d.isDigit then parseDigitGroupsAux cs (acc * 10 + (d.toNat - 48)) else none
    else none

def parseDigitGroups : List Char → Option Nat
  | [] => none
  | c :: cs => if c.isDigit then parseDigitGroupsAux cs (c.toNat - 48) else none

def pyIntOfString (s : String) : Option Int :=
  let t := ((s.toList.dropWhile isSpaceChar).reverse.dropWhile isSpaceChar).reverse
  match t with
  | [] => none
  | c :: cs =>
    if c = '-' then (parseDigitGroups cs).map (fun n => -(n : Int))
    else if c = '+' then (parseDigitGroups cs).map (fun n => (n : Int))
    else (parseDigitGroups (c :: cs)).map (fun n => (n : Int))

/-- The row/column inference of `export_csvs`: keys starting with
`"match_box_"` whose last `"_"`-separated segment parses as an int `n` get
`row = (n-1) // 3` and `col = (n-1) % 3` (Python floor division and
nonnegative remainder); every other key keeps both coordinates `None`. -/
def inferCoords (key : String) : Option Int × Option Int :=
  if strStartsWith key "match_box_" then
    match pyIntOfString (lastUnderscoreSegment key) with
    | some n => (some (Int.fdiv (n - 1) 3), some (Int.emod (n - 1) 3))
    | none => (none, none)
  else (none, none)

/-- A key of the shape the coordinate inference accepts: the `"match_box_"`
prefix and an int-parsable last segment. -/
def isMatchBoxKey (key : String) : Bool :=
  strStartsWith key "match_box_" && (pyIntOfString (lastUnderscoreSegment key)).isSome

/-- One row of `geogrid_board_unresolved_answer_names.csv`. -/
structure UnresolvedRow where
  board_id : Nat
  cell_key : String
  answer_name : String
  answer_name_normalized : String
deriving DecidableEq

/-- One row of `geogrid_board_cells.csv`. -/
structure CellRow where
  board_id : Nat
  cell_key : String
  row_idx : Option Int
  col_idx : Option Int
  answers_count : Nat
  answers_names_json : String
  answers_codes_json : String
  unknown_answers_json : String
deriving DecidableEq

/-- The inner answer-resolution loop of `export_csvs`: for each string
element, normalize with `norm_country_name` and look it up in the index; a
truthy hit is collected into `codes_resolved`, a miss is collected into
`unknown` and recorded as an `UnresolvedRow` with the raw and the normalized
name.  Non-string elements are skipped.  Returns
`(codes_resolved, unknown, unresolved_rows)` in processing order. -/
def resolveAnswers (m : List (String × String)) (bid : Nat) (key : String) :
    List JVal → List String × List String × List UnresolvedRow
  | [] => ([], [], [])
  | .jstr name :: rest =>
    let r := resolveAnswers m bid key rest
    let nrm := norm_country_name name
    match lookup? nrm m with
    | some code =>
      if code = "" then (r.1, name :: r.2.1, ⟨bid, key, name, nrm⟩ :: r.2.2)
      else (code :: r.1, r.2.1, r.2.2)
    | none => (r.1, name :: r.2.1, ⟨bid, key, name, nrm⟩ :: r.2.2)
  | _ :: rest => resolveAnswers m bid key rest

/-- Build the `cell_rows` entry of `export_csvs` for one `(key, ans_list)`
pair of a board's `answers` dict, together with the unresolved rows it
contributes: coordinates from the key shape, resolved codes and unknown raw
names each stored as `sorted(set(...))` JSON arrays. -/
def processCell (m : List (String × String)) (bid : Nat) (key : String)
    (ansList : List JVal) : CellRow × List UnresolvedRow :=
  let rc := inferCoords key
  let r := resolveAnswers m bid key ansList
  (⟨bid, key, rc.1, rc.2, ansList.length,
    json_dumps_stable (.jarr ansList),
    json_dumps_stable (.jarr ((sortedDedup r.1).map .jstr)),
    json_dumps_stable (.jarr ((sortedDedup r.2.1).map .jstr))⟩,
   r.2.2)

/-- The `answers` loop of `export_csvs` over one board: entries whose value
is not a list are skipped, the rest produce one cell row each (and their
unresolved rows, concatenated in order). -/
def processAnswers (m : List (String × String)) (bid : Nat) :
    List (String × JVal) → List CellRow × List UnresolvedRow
  | [] => ([], [])
  | (key, v) :: rest =>
    let r := processAnswers m bid rest
    match v with
    | .jarr ansList =>
      let c := processCell m bid key ansList
      (c.1 :: r.1, c.2 ++ r.2)
    | _ => r

/-! ### Rarity scoring (`export_ui_countries_csv`) -/

/-- Python's `round` on the exact value `num / den` (`den > 0`): round half
to even, computed on the integer numerator and denominator. -/
def pyRoundFrac (num den : Int) : Int :=
  let f := Int.fdiv num den
  let r2 := 2 * (num - f * den)
  if r2 < den then f
  else if den < r2 then f + 1
  else if f % 2 = 0 then f else f + 1

/-- The score assigned to 0-based rank `i` among `n` ranked codes:
`100` when `n == 1`, else `int(round(100 * (1 - i/(n-1))))` — the fraction
`100*((n-1)-i) / (n-1)` rounded half to even (exact arithmetic; every value
arising in the verified claims is exactly representable as a float, where
Python computes the same number). -/
def scoreAt (n i : Nat) : Int :=
  if n = 1 then 100
  else pyRoundFrac (100 * ((n : Int) - 1 - i)) ((n : Int) - 1)

/-- The sort key of `sorted(code_to_answer_cell_count.items(),
key=lambda kv: (kv[1], kv[0]))`: ascending count, code breaking ties. -/
def statRel (a b : String × Nat) : Prop :=
  a.2 < b.2 ∨ (a.2 = b.2 ∧ strLe a.1 b.1 = true)

instance : DecidableRel statRel := fun a b => by unfold statRel; infer_instance

instance : IsTotal (String × Nat) statRel := by
  constructor
  intro a b
  rcases Nat.lt_trichotomy a.2 b.2 with h | h | h
  · exact Or.inl (Or.inl h)
  · rcases listCharLe_total a.1.toList b.1.toList with hs | hs
    · exact Or.inl (Or.inr ⟨h, hs⟩)
    · exact Or.inr (Or.inr ⟨h.symm, hs⟩)
  · exact Or.inr (Or.inl h)

instance : IsTrans (String × Nat) statRel := by
  constructor
  intro a b c hab hbc
  rcases hab with h1 | ⟨e1, s1⟩
  · rcases hbc with h2 | ⟨e2, _⟩
    · exact Or.inl (Nat.lt_trans h1 h2)
    · exact Or.inl (e2 ▸ h1)
  · rcases hbc with h2 | ⟨e2, s2⟩
    · exact Or.inl (e1 ▸ h2)
    · exact Or.inr ⟨e1.trans e2, listCharLe_trans s1 s2⟩

/-- The ranking of `export_ui_countries_csv`: the statistic's items sorted
ascending by `(count, code)`. -/
def sortStat (stat : List (String × Nat)) : List (String × Nat) :=
  List.insertionSort statRel stat

/-- The `for idx, (cc, _cnt) in enumerate(items)` loop assigning
`scoreAt n idx` to each ranked code, `i` being the running index. -/
def rarityScoresAux (n : Nat) : Nat → List (String × Nat) → List (String × Int)
  | _, [] => []
  | i, (cc, _) :: rest => (cc, scoreAt n i) :: rarityScoresAux n (i + 1) rest

/-- `rarity_score_by_code` as an association list in ranking order: ranked
codes paired with their percentile score. -/
def rarityScores (stat : List (String × Nat)) : List (String × Int) :=
  rarityScoresAux (sortStat stat).length 0 (sortStat stat)

/-- `rarity_score_by_code.get(code)`: the score of a code, `None` when the
code never appears in the statistic. -/
def rarityScoreOf (stat : List (String × Nat)) (code : String) : Option Int :=
  lookup? code (rarityScores stat)

/-! ### Board range mirroring (`mirror_boards`) -/

/-- The report `mirror_boards` returns: ordered missing ids, ordered
structurally-invalid ids, and the highest id that validated successfully. -/
structure BoardsReport where
  missing : List Nat
  invalid : List Nat
  last_success : Nat
deriving DecidableEq

/-- The `for board_id in range(1, latest_board_id + 1)` loop of
`mirror_boards`, parameterized by the environment: `ex id` — the board file
already exists, `fok id` — a fetch attempt succeeds, `val id` — the (now
present) file parses as a dict exposing `rows`, `columns` and `answers`.
State: remaining ids, `consecutive_misses`, `last_success`, and the reversed
accumulators for `missing` and `invalid`.  A miss appends the id, bumps the
counter, and breaks out of the loop when `board_id >= latest_board_id - 7`
and the counter has reached 3; otherwise it `continue`s.  A present file
resets the counter and is validated. -/
def mirrorBoardsLoop (ex fok val : Nat → Bool) (latest : Nat) :
    List Nat → Nat → Nat → List Nat → List Nat → BoardsReport
  | [], _, ls, miss, inv => ⟨miss.reverse, inv.reverse, ls⟩
  | id :: rest, cm, ls, miss, inv =>
    if ex id = false ∧ fok id = false then
      if latest ≤ id + 7 ∧ 3 ≤ cm + 1 then ⟨(id :: miss).reverse, inv.reverse, ls⟩
      else mirrorBoardsLoop ex fok val latest rest (cm + 1) ls (id :: miss) inv
    else
      if val id then mirrorBoardsLoop ex fok val latest rest 0 id miss inv
      else mirrorBoardsLoop ex fok val latest rest 0 ls miss (id :: inv)

/-- `mirror_boards(p, latest_board_id)` over ids `1..latest`. -/
def mirror_boards (ex fok val : Nat → Bool) (latest : Nat) : BoardsReport :=
  mirrorBoardsLoop ex fok val latest (List.range' 1 latest) 0 0 [] []

/-! ### Board id from the date (`compute_latest_board_id`) -/

/-- Proleptic Gregorian leap year, as `datetime.date` uses. -/
def isLeapYear (y : Nat) : Bool :=
  y % 4 = 0 && (y % 100 ≠ 0 || y % 400 = 0)

/-- Days before month `m` in a non-leap year. -/
def daysBeforeMonth (m : Nat) : Nat :=
  [0, 31, 59, 90, 120, 151, 181, 212, 243, 273, 304, 334].getD (m - 1) 0

/-- `datetime.date(y, m, d).toordinal()`: days since 0001-01-00 in the
proleptic Gregorian calendar.  Dates are modelled by their ordinal, so that
subtracting two dates gives `timedelta.days`. -/
def dateOrdinal (y m d : Nat) : Nat :=
  365 * (y - 1) + (y - 1) / 4 - (y - 1) / 100 + (y - 1) / 400
    + daysBeforeMonth m + (if 2 < m && isLeapYear y then 1 else 0) + d

/-- `GEOGRID_START_DATE = dt.date(2024, 4, 7)`. -/
def GEOGRID_START_DATE : Nat := dateOrdinal 2024 4 7

/-- `compute_latest_board_id(today)`: `1` when today precedes the epoch,
otherwise the elapsed days plus one. -/
def compute_latest_board_id (today : Nat) : Nat :=
  if today < GEOGRID_START_DATE then 1
  else (today - GEOGRID_START_DATE) + 1

/-! ### Exit status computation (`main`, step 5) -/

/-- The verification step of `main`: `hard_fail` is set by unparsable
per-country detail files, missing/invalid flag SVGs, or a missing mandatory
output CSV; unresolved answer names only print a warning.  The process exit
status is `2` on hard failure and `0` otherwise. -/
def main_exit_code (invalid_common invalid_geogrid flags_missing flags_invalid : List String)
    (geogrid_details_csv_exists ui_csv_exists : Bool) (unresolved_count : Nat) : Nat :=
  let hard_fail :=
    (!invalid_common.isEmpty || !invalid_geogrid.isEmpty)
    || (!flags_missing.isEmpty || !flags_invalid.isEmpty)
    || !geogrid_details_csv_exists
    || !ui_csv_exists
  if hard_fail then 2 else 0

/-! ### Helper lemmas -/

/-- Explicit `Option` fallback, for stating dict-lookup decompositions. -/
def orElseO {α : Type} : Option α → Option α → Option α
  | some x, _ => some x
  | none, b => b

theorem orElseO_none_right {α : Type} (a : Option α) : orElseO a none = a := by
  cases a <;> rfl

theorem orElseO_assoc {α : Type} (a b c : Option α) :
    orElseO (orElseO a b) c = orElseO a (orElseO b c) := by
  cases a <;> rfl

theorem lookup?_append {α : Type} (k : String) (l1 l2 : List (String × α)) :
    lookup? k (l1 ++ l2) = orElseO (lookup? k l1) (lookup? k l2) := by
  induction l1 with
  | nil => rfl
  | cons p rest ih =>
    by_cases h : p.1 = k
    · cases p; simp_all [lookup?, orElseO]
    · cases p; simp_all [lookup?]

theorem lookup?_eq_none_iff {α : Type} (k : String) (m : List (String × α)) :
    lookup? k m = none ↔ k ∉ m.map Prod.fst := by
  induction m with
  | nil => simp [lookup?]
  | cons p rest ih =>
    cases p with
    | mk k2 v =>
      simp only [lookup?, List.map_cons, List.mem_cons]
      by_cases h : k2 = k
      · subst h; simp
      · rw [if_neg h, ih]
        constructor
        · intro hn hor
          rcases hor with h2 | h2
          · exact h h2.symm
          · exact hn h2
        · intro hn h2
          exact hn (Or.inr h2)

theorem lookup?_isSome_of_any {α : Type} {m : List (String × α)} {k : String}
    (h : m.any (fun p => p.1 = k) = true) : ∃ v, lookup? k m = some v := by
  induction m with
  | nil => simp at h
  | cons p rest ih =>
    by_cases hk : p.1 = k
    · exact ⟨p.2, by cases p; simp_all [lookup?]⟩
    · cases p with
      | mk k2 v =>
        simp only [List.any_cons, Bool.or_eq_true, decide_eq_true_eq] at h
        rcases h with h | h
        · exact absurd h hk
        · obtain ⟨w, hw⟩ := ih h
          exact ⟨w, by simpa [lookup?, hk] using hw⟩

theorem lookup?_cons (k : String) {α : Type} (p : String × α) (l : List (String × α)) :
    lookup? k (p :: l) = orElseO (lookup? k [p]) (lookup? k l) := by
  cases p with
  | mk k2 v =>
    by_cases h : k2 = k <;> simp [lookup?, h, orElseO]

/-- Lookup through the candidate-insertion fold: the result is the lookup in
the accumulator, falling back to the first matching candidate pair (skipping
empty normalizations). -/
theorem lookup_foldl_insertCandidate (code k : String) (cands : List String)
    (acc : List (String × String)) :
    lookup? k (cands.foldl (insertCandidate code) acc)
      = orElseO (lookup? k acc)
          (lookup? k (((cands.map (fun raw => (normName raw, code))).filter
            (fun p => ¬ p.1 = "")))) := by
  induction cands generalizing acc with
  | nil => exact (orElseO_none_right _).symm
  | cons raw cands ih =>
    simp only [List.foldl_cons, List.map_cons, List.filter_cons]
    rw [ih]
    by_cases hn : normName raw = ""
    · have hstep : insertCandidate code acc raw = acc := by
        simp [insertCandidate, hn]
      rw [hstep, if_neg (by simp [hn])]
    · rw [if_pos (by simp [hn])]
      by_cases hany : acc.any (fun p => p.1 = normName raw) = true
      · have hstep : insertCandidate code acc raw = acc := by
          simp only [insertCandidate, if_neg hn]
          rw [if_pos hany]
        rw [hstep, lookup?_cons]
        by_cases hk : normName raw = k
        · obtain ⟨v, hv⟩ := lookup?_isSome_of_any (k := k) (hk ▸ hany)
          simp [lookup?, hk, hv, orElseO]
        · simp [lookup?, hk, orElseO]
      · have hstep : insertCandidate code acc raw = acc ++ [(normName raw, code)] := by
          simp only [insertCandidate, if_neg hn]
          rw [if_neg hany]
        rw [hstep, lookup?_append, orElseO_assoc]
        conv_rhs => rw [lookup?_cons]

/-- Lookup through one entity's insertion: accumulator first, then the
entity's own candidate pairs. -/
theorem lookup_insertCountry (k : String) (acc : List (String × String))
    (c : CommonCountry) :
    lookup? k (insertCountry acc c)
      = orElseO (lookup? k acc) (lookup? k (countryPairs c)) := by
  obtain ⟨cod, nm, nms⟩ := c
  cases cod with
  | none => exact (orElseO_none_right _).symm
  | some code =>
    simp only [insertCountry, countryPairs]
    by_cases hc : code = ""
    · rw [if_pos hc, if_pos hc]
      exact (orElseO_none_right _).symm
    · rw [if_neg hc, if_neg hc]
      exact lookup_foldl_insertCandidate code k _ acc

/-- Lookup through the whole index build: accumulator first, then the
flattened candidate pairs. -/
theorem lookup_build_fold (k : String) (cs : List CommonCountry)
    (acc : List (String × String)) :
    lookup? k (cs.foldl insertCountry acc)
      = orElseO (lookup? k acc) (lookup? k (candidate_pairs cs)) := by
  induction cs generalizing acc with
  | nil => exact (orElseO_none_right _).symm
  | cons c cs ih =>
    simp only [List.foldl_cons]
    rw [ih, lookup_insertCountry]
    unfold candidate_pairs
    rw [List.flatMap_cons, lookup?_append, orElseO_assoc]

theorem encPairs_eq_map (kvs : List (String × JVal)) :
    encPairs kvs = kvs.map (fun p => (p.1, json_dumps_stable p.2)) := by
  induction kvs with
  | nil => rfl
  | cons p rest ih =>
    cases p
    simp only [encPairs, List.map_cons, ih]

/-- Two permuted pair lists with no duplicated keys have the same key-sorted
form (the sort key being the raw string key). -/
theorem sortPairs_perm_eq {l1 l2 : List (String × String)}
    (hnd : (l1.map Prod.fst).Nodup) (hp : l1.Perm l2) :
    List.insertionSort pairKeyRel l1 = List.insertionSort pairKeyRel l2 := by
  have s1 := List.sorted_insertionSort pairKeyRel l1
  have s2 := List.sorted_insertionSort pairKeyRel l2
  have p1 := List.perm_insertionSort pairKeyRel l1
  have p2 := List.perm_insertionSort pairKeyRel l2
  have hperm : (List.insertionSort pairKeyRel l1).Perm (List.insertionSort pairKeyRel l2) :=
    p1.trans (hp.trans p2.symm)
  have hnd1 : ((List.insertionSort pairKeyRel l1).map Prod.fst).Nodup :=
    ((p1.map Prod.fst).symm).nodup hnd
  have hnd2 : ((List.insertionSort pairKeyRel l2).map Prod.fst).Nodup :=
    ((hperm.map Prod.fst)).nodup hnd1
  have hne1 : List.Pairwise (fun a b : String × String => a.1 ≠ b.1)
      (List.insertionSort pairKeyRel l1) := List.pairwise_map.mp hnd1
  have hne2 : List.Pairwise (fun a b : String × String => a.1 ≠ b.1)
      (List.insertionSort pairKeyRel l2) := List.pairwise_map.mp hnd2
  have hs1 : List.Pairwise (fun a b : String × String => pairKeyRel a b ∧ a.1 ≠ b.1)
      (List.insertionSort pairKeyRel l1) := List.Pairwise.and s1 hne1
  have hs2 : List.Pairwise (fun a b : String × String => pairKeyRel a b ∧ a.1 ≠ b.1)
      (List.insertionSort pairKeyRel l2) := List.Pairwise.and s2 hne2
  exact @List.eq_of_perm_of_sorted _ (fun a b => pairKeyRel a b ∧ a.1 ≠ b.1)
    ⟨fun _ _ h1 h2 => absurd (strLe_antisymm h1.1 h2.1) h1.2⟩ _ _ hperm hs1 hs2

theorem map_fst_rarityScoresAux (n k : Nat) (l : List (String × Nat)) :
    (rarityScoresAux n k l).map Prod.fst = l.map Prod.fst := by
  induction l generalizing k with
  | nil => rfl
  | cons p rest ih =>
    cases p
    simp only [rarityScoresAux, List.map_cons, ih]

theorem rarityScoresAux_getElem? (n : Nat) (l : List (String × Nat)) (k i : Nat) :
    (rarityScoresAux n k l)[i]? = (l[i]?).map (fun p => (p.1, scoreAt n (k + i))) := by
  induction l generalizing k i with
  | nil => simp [rarityScoresAux]
  | cons p rest ih =>
    cases p with
    | mk cc cnt =>
      cases i with
      | zero => simp [rarityScoresAux]
      | succ j =>
        simp only [rarityScoresAux, List.getElem?_cons_succ, ih]
        have : k + 1 + j = k + (j + 1) := by omega
        rw [this]

/-! ### Claim theorems -/

/-- Claim C8: the target upper board id is a pure function of today's date —
`1` for any day before the epoch, and `1 + (elapsed days)` from the epoch on;
in particular the epoch date itself gives target id `1` and epoch + 10 days
gives target id `11`. -/
theorem claim_C8_latest_board_id :
    (∀ today : Nat, today < GEOGRID_START_DATE → compute_latest_board_id today = 1)
    ∧ (∀ today : Nat, GEOGRID_START_DATE ≤ today →
        compute_latest_board_id today = 1 + (today - GEOGRID_START_DATE))
    ∧ compute_latest_board_id GEOGRID_START_DATE = 1
    ∧ compute_latest_board_id (GEOGRID_START_DATE + 10) = 11 := by
  refine ⟨?_, ?_, ?_, ?_⟩
  · intro t h
    unfold compute_latest_board_id
    rw [if_pos h]
  · intro t h
    unfold compute_latest_board_id
    rw [if_neg (Nat.not_lt.mpr h)]
    omega
  · unfold compute_latest_board_id
    rw [if_neg (by omega)]
    omega
  · unfold compute_latest_board_id
    rw [if_neg (by omega)]
    omega

theorem claim_C8_witness :
    compute_latest_board_id 5 = 1
    ∧ compute_latest_board_id (GEOGRID_START_DATE + 10)
        = 1 + (GEOGRID_START_DATE + 10 - GEOGRID_START_DATE) :=
  ⟨claim_C8_latest_board_id.1 5 (by decide),
   claim_C8_latest_board_id.2.1 (GEOGRID_START_DATE + 10) (by omega)⟩

/-- Claim C10: the historical-alias correction maps exactly the ten fixed
alias strings (case-sensitively) to their current official names and returns
every other input unchanged; in particular the lowercase variant
`"ivory coast"` is not a key and comes back unchanged. -/
theorem claim_C10_alias_table :
    (∀ s : String, s ∉ old_name_keys → update_old_names_to_match_cdn s = s)
    ∧ update_old_names_to_match_cdn "Ivory Coast" = "Côte d\u0027Ivoire"
    ∧ update_old_names_to_match_cdn "Aland Islands" = "Åland"
    ∧ update_old_names_to_match_cdn "East Timor" = "Timor-Leste"
    ∧ update_old_names_to_match_cdn "Micronesia" = "Federated States of Micronesia"
    ∧ update_old_names_to_match_cdn "Guernsey" = "Bailiwick of Guernsey"
    ∧ update_old_names_to_match_cdn "Cape Verde" = "Cabo Verde"
    ∧ update_old_names_to_match_cdn "Reunion" = "Réunion"
    ∧ update_old_names_to_match_cdn "Curacao" = "Curaçao"
    ∧ update_old_names_to_match_cdn "Saint Barthelemy" = "Saint Barthélemy"
    ∧ update_old_names_to_match_cdn "Sao Tome and Principe" = "São Tomé and Príncipe"
    ∧ update_old_names_to_match_cdn "ivory coast" = "ivory coast" := by
  refine ⟨?_, rfl, rfl, rfl, rfl, rfl, rfl, rfl, rfl, rfl, rfl, rfl⟩
  intro s hs
  unfold update_old_names_to_match_cdn
  rw [if_neg (fun h => hs (by rw [h]; decide)), if_neg (fun h => hs (by rw [h]; decide)),
    if_neg (fun h => hs (by rw [h]; decide)), if_neg (fun h => hs (by rw [h]; decide)),
    if_neg (fun h => hs (by rw [h]; decide)), if_neg (fun h => hs (by rw [h]; decide)),
    if_neg (fun h => hs (by rw [h]; decide)), if_neg (fun h => hs (by rw [h]; decide)),
    if_neg (fun h => hs (by rw [h]; decide)), if_neg (fun h => hs (by rw [h]; decide))]

theorem claim_C10_witness :
    update_old_names_to_match_cdn "France" = "France" :=
  claim_C10_alias_table.1 "France" (by decide)

/-- Claim C2: the board-ingest loop stops immediately when a fetch miss
brings the consecutive-miss counter to 3 while the current id is within the
last 7 ids of the target range (`board_id >= latest - 7`): the result is
returned at once, independent of the remaining ids.  In the concrete
scenario with target 20, ids 1..17 succeeding and 18, 19, 20 failing,
ingestion records exactly the three misses 18, 19, 20 (stopping at 20) with
`last_success = 17`. -/
theorem claim_C2_early_stop :
    (∀ (ex fok val : Nat → Bool) (latest id : Nat) (rest : List Nat)
        (cm ls : Nat) (miss inv : List Nat),
        ex id = false → fok id = false → latest ≤ id + 7 → 2 ≤ cm →
        mirrorBoardsLoop ex fok val latest (id :: rest) cm ls miss inv
          = ⟨(id :: miss).reverse, inv.reverse, ls⟩)
    ∧ mirror_boards (fun _ => false) (fun id => decide (id ≤ 17)) (fun _ => true) 20
        = ⟨[18, 19, 20], [], 17⟩ := by
  constructor
  · intro ex fok val latest id rest cm ls miss inv hex hfok hnear hcm
    unfold mirrorBoardsLoop
    rw [if_pos ⟨hex, hfok⟩, if_pos ⟨hnear, by omega⟩]
  · decide

theorem claim_C2_witness :
    mirrorBoardsLoop (fun _ => false) (fun _ => false) (fun _ => true) 20
        [20, 21, 22] 2 17 [19, 18] []
      = ⟨[18, 19, 20], [], 17⟩ :=
  claim_C2_early_stop.1 (fun _ => false) (fun _ => false) (fun _ => true) 20 20
    [21, 22] 2 17 [19, 18] [] rfl rfl (by omega) (by omega)

/-- Claim C6: the flattener maps the empty mapping to the empty row; the
document `a ↦ (b ↦ 1)` flattens to a row binding `a` to the stable encoding
of `(b ↦ 1)` and `a__b` to `1`; and a list-valued field contributes exactly
one assignment — the stable encoding of the list under the (prefixed) key —
with no recursion into the list (never exploded into indexed columns). -/
theorem claim_C6_flattener :
    (∀ pre : String, flatten_for_csv [] pre = [])
    ∧ lookup? "a" (flatten_for_csv [("a", .jobj [("b", .jnum 1)])] "")
        = some (.jstr "\x7b\"b\":1\x7d")
    ∧ lookup? "a__b" (flatten_for_csv [("a", .jobj [("b", .jnum 1)])] "")
        = some (.jnum 1)
    ∧ (∀ (pre k : String) (xs : List JVal) (rest out : List (String × JVal)),
        flatten_aux ((k, .jarr xs) :: rest) pre out
          = flatten_aux rest pre
              (dictSet out (if pre = "" then k else pre ++ "__" ++ k)
                (.jstr (json_dumps_stable (.jarr xs))))) :=
  ⟨fun _ => rfl, rfl, rfl, fun _ _ _ _ _ => rfl⟩

/-- Claim C3: resolving a free-text answer first applies the historical-alias
table to the raw string and then normalizes (trim, lowercase, collapse
whitespace runs, map the `’` apostrophe to `'`) before the index lookup;
consequently, with the index built from the single entity
`CI ↦ "Côte d\u0027Ivoire"`, the noisy variant `"  Côte   d\u2019Ivoire "`, the alias
`"Ivory Coast"` and the canonical `"Côte d\u0027Ivoire"` all resolve to `CI`. -/
theorem claim_C3_name_resolution :
    (∀ s : String, norm_country_name s = normName (update_old_names_to_match_cdn s))
    ∧ lookup? (norm_country_name "  Côte   d\u2019Ivoire ")
        (build_name_to_code [⟨some "CI", some "Côte d\u0027Ivoire", []⟩]) = some "CI"
    ∧ lookup? (norm_country_name "Ivory Coast")
        (build_name_to_code [⟨some "CI", some "Côte d\u0027Ivoire", []⟩]) = some "CI"
    ∧ lookup? (norm_country_name "Côte d\u0027Ivoire")
        (build_name_to_code [⟨some "CI", some "Côte d\u0027Ivoire", []⟩]) = some "CI" :=
  ⟨fun _ => rfl, by decide, by decide, by decide⟩

/-- Claim C7: keys `match_box_N` with `N` in `1..9` resolve to
`row = (N-1) div 3`, `col = (N-1) mod 3`; keys of any other shape leave both
coordinates unset; the stored code and unresolved-name lists of a cell are
set-deduplicated and sorted; and end-to-end, with the single reference entity
`FR ↦ France` and a board answering `France` in `match_box_1`, the resolved
cell has row 0, column 0, codes `["FR"]` and an empty unresolved table. -/
theorem claim_C7_cells :
    (∀ n : Nat, 1 ≤ n → n ≤ 9 →
        inferCoords ("match_box_" ++ toString n)
          = (some (Int.fdiv ((n : Int) - 1) 3), some (Int.emod ((n : Int) - 1) 3)))
    ∧ (∀ key : String, isMatchBoxKey key = false → inferCoords key = (none, none))
    ∧ (∀ (m : List (String × String)) (bid : Nat) (key : String) (ans : List JVal),
        (processCell m bid key ans).1.answers_codes_json
            = json_dumps_stable
                (.jarr ((sortedDedup (resolveAnswers m bid key ans).1).map .jstr))
          ∧ (processCell m bid key ans).1.unknown_answers_json
            = json_dumps_stable
                (.jarr ((sortedDedup (resolveAnswers m bid key ans).2.1).map .jstr))
          ∧ List.Sorted strRel (sortedDedup (resolveAnswers m bid key ans).1)
          ∧ (sortedDedup (resolveAnswers m bid key ans).1).Nodup
          ∧ (∀ c, c ∈ sortedDedup (resolveAnswers m bid key ans).1
              ↔ c ∈ (resolveAnswers m bid key ans).1)
          ∧ List.Sorted strRel (sortedDedup (resolveAnswers m bid key ans).2.1)
          ∧ (sortedDedup (resolveAnswers m bid key ans).2.1).Nodup
          ∧ (∀ c, c ∈ sortedDedup (resolveAnswers m bid key ans).2.1
              ↔ c ∈ (resolveAnswers m bid key ans).2.1))
    ∧ processAnswers (build_name_to_code [⟨some "FR", some "France", [("en", "France")]⟩]) 1
        [("match_box_1", .jarr [.jstr "France"])]
        = ([⟨1, "match_box_1", some 0, some 0, 1, "[\"France\"]", "[\"FR\"]", "[]"⟩], []) := by
  refine ⟨?_, ?_, ?_, by decide⟩
  · intro n h1 h9
    interval_cases n <;> decide
  · intro key h
    unfold isMatchBoxKey at h
    unfold inferCoords
    cases hs : strStartsWith key "match_box_" with
    | false => simp [hs]
    | true =>
      rw [hs] at h
      simp only [Bool.true_and] at h
      cases hp : pyIntOfString (lastUnderscoreSegment key) with
      | none => simp [hs, hp]
      | some n => rw [hp] at h; simp at h
  · intro m bid key ans
    exact ⟨rfl, rfl, sortedDedup_sorted _, sortedDedup_nodup _, mem_sortedDedup _,
      sortedDedup_sorted _, sortedDedup_nodup _, mem_sortedDedup _⟩

theorem claim_C7_witness :
    inferCoords ("match_box_" ++ toString 5)
      = (some (Int.fdiv ((5 : Int) - 1) 3), some (Int.emod ((5 : Int) - 1) 3)) :=
  claim_C7_cells.1 5 (by decide) (by decide)

/-- Claim C9: an answer name that fails resolution is always recorded in the
unresolved audit output together with its normalized form, and the
unresolved-answer count plays no part in the exit status: the exit code is
the same for any two counts, and a run whose only findings are unresolved
names exits 0. -/
theorem claim_C9_unresolved_audit :
    (∀ (m : List (String × String)) (bid : Nat) (key : String) (ans : List JVal)
        (name : String),
        JVal.jstr name ∈ ans → lookup? (norm_country_name name) m = none →
        (⟨bid, key, name, norm_country_name name⟩ : UnresolvedRow)
          ∈ (processCell m bid key ans).2)
    ∧ (∀ (ic ig fm fi : List String) (ge ue : Bool) (u1 u2 : Nat),
        main_exit_code ic ig fm fi ge ue u1 = main_exit_code ic ig fm fi ge ue u2)
    ∧ (∀ u : Nat, main_exit_code [] [] [] [] true true u = 0) := by
  refine ⟨?_, fun _ _ _ _ _ _ _ _ => rfl, fun _ => rfl⟩
  intro m bid key ans name hmem hmiss
  show _ ∈ (resolveAnswers m bid key ans).2.2
  induction ans with
  | nil => cases hmem
  | cons v rest ih =>
    rcases List.mem_cons.mp hmem with h | h
    · subst h
      simp only [resolveAnswers, hmiss]
      exact List.mem_cons_self _ _
    · have hmem2 := ih h
      cases v with
      | jstr name2 =>
        simp only [resolveAnswers]
        cases hl : lookup? (norm_country_name name2) m with
        | none => exact List.mem_cons_of_mem _ hmem2
        | some code =>
          dsimp only
          by_cases hc : code = ""
          · rw [if_pos hc]
            exact List.mem_cons_of_mem _ hmem2
          · rw [if_neg hc]
            exact hmem2
      | null => exact hmem2
      | jbool b => exact hmem2
      | jnum n => exact hmem2
      | jarr xs => exact hmem2
      | jobj kvs => exact hmem2

theorem claim_C9_witness :
    ((⟨7, "match_box_2", "Atlantis", norm_country_name "Atlantis"⟩ : UnresolvedRow)
        ∈ (processCell [] 7 "match_box_2" [JVal.jstr "Atlantis"]).2)
    ∧ main_exit_code [] [] [] [] true true 5 = 0 :=
  ⟨claim_C9_unresolved_audit.1 [] 7 "match_box_2" [JVal.jstr "Atlantis"] "Atlantis"
      (List.mem_cons_self _ _) rfl,
   claim_C9_unresolved_audit.2.2 5⟩

/-- Claim C5: the composite encoder is a pure deterministic function on
JSON-compatible values; for mappings, key order does not affect the output
(any permutation of an object's entries, its keys being distinct, encodes to
the identical string — in particular `a↦1, b↦2` in either insertion order,
with keys sorted and no incidental whitespace), while sequences that differ
in element order encode differently. -/
theorem claim_C5_stable_encoder :
    (∀ v : JVal, json_dumps_stable v = json_dumps_stable v)
    ∧ (∀ kvs1 kvs2 : List (String × JVal), (kvs1.map Prod.fst).Nodup → kvs1.Perm kvs2 →
        json_dumps_stable (.jobj kvs1) = json_dumps_stable (.jobj kvs2))
    ∧ json_dumps_stable (.jobj [("a", .jnum 1), ("b", .jnum 2)])
        = json_dumps_stable (.jobj [("b", .jnum 2), ("a", .jnum 1)])
    ∧ json_dumps_stable (.jobj [("a", .jnum 1), ("b", .jnum 2)]) = "\x7b\"a\":1,\"b\":2\x7d"
    ∧ json_dumps_stable (.jarr [.jnum 1, .jnum 2])
        ≠ json_dumps_stable (.jarr [.jnum 2, .jnum 1]) := by
  refine ⟨fun _ => rfl, ?_, rfl, rfl, by decide⟩
  intro kvs1 kvs2 hnd hp
  have hkeys : (encPairs kvs1).map Prod.fst = kvs1.map Prod.fst := by
    rw [encPairs_eq_map, List.map_map]
    rfl
  have hnd1 : ((encPairs kvs1).map Prod.fst).Nodup := by rw [hkeys]; exact hnd
  have hperm : (encPairs kvs1).Perm (encPairs kvs2) := by
    rw [encPairs_eq_map, encPairs_eq_map]
    exact hp.map _
  have hsorted := sortPairs_perm_eq hnd1 hperm
  show "\x7b" ++ encEntries (List.insertionSort pairKeyRel (encPairs kvs1)) ++ "\x7d"
      = "\x7b" ++ encEntries (List.insertionSort pairKeyRel (encPairs kvs2)) ++ "\x7d"
  rw [hsorted]

theorem claim_C5_witness :
    json_dumps_stable (.jobj [("x", .jnum 3), ("y", .null)])
      = json_dumps_stable (.jobj [("y", .null), ("x", .jnum 3)]) :=
  claim_C5_stable_encoder.2.1 [("x", .jnum 3), ("y", .null)] [("y", .null), ("x", .jnum 3)]
    (by decide) (List.Perm.swap ("y", JVal.null) ("x", JVal.jnum 3) [])

/-- Claim C4: looking up any normalized string in the built name→code index
gives exactly the first matching pair of the flat candidate sequence in
reference-list processing order — every candidate is inserted, and on a
collision the first-seen entity's code is kept while the later pair is
dropped; concretely, two entities both named `X` leave only the first
entity's code in the index. -/
theorem claim_C4_index_first_seen :
    (∀ (cs : List CommonCountry) (k : String),
        lookup? k (build_name_to_code cs) = lookup? k (candidate_pairs cs))
    ∧ build_name_to_code [⟨some "A", some "X", []⟩, ⟨some "B", some "X", []⟩]
        = [("x", "A")] := by
  constructor
  · intro cs k
    unfold build_name_to_code
    rw [lookup_build_fold]
    rfl
  · decide

/-- Claim C1: for a non-empty rarity statistic with positive counts and
distinct codes, the ranking is the statistic sorted ascending by
`(count, code)` (a permutation of the statistic, sorted under `statRel`);
the rank-`i` entry scores `scoreAt n i` — 100 when `n = 1`, else the banker's
rounding of the exact value `100*(1 - i/(n-1))`, the final conjunct
identifying that fraction; codes absent from the statistic get no score; and
counts `A↦1, B↦2, C↦2` score `100, 50, 0` in rank order. -/
theorem claim_C1_rarity :
    ∀ stat : List (String × Nat), stat ≠ [] → (∀ p ∈ stat, 0 < p.2) →
      (stat.map Prod.fst).Nodup →
      (sortStat stat).Perm stat
      ∧ List.Sorted statRel (sortStat stat)
      ∧ (∀ i : Nat, (rarityScores stat)[i]?
          = ((sortStat stat)[i]?).map (fun p => (p.1, scoreAt (sortStat stat).length i)))
      ∧ (∀ code : String, code ∉ stat.map Prod.fst → rarityScoreOf stat code = none)
      ∧ rarityScores [("A", 1), ("B", 2), ("C", 2)] = [("A", 100), ("B", 50), ("C", 0)]
      ∧ (∀ n i : Nat, 2 ≤ n →
          (100 * ((n : ℚ) - 1 - i)) / ((n : ℚ) - 1) = 100 * (1 - (i : ℚ) / ((n : ℚ) - 1))) := by
  intro stat hne hpos hnodup
  refine ⟨List.perm_insertionSort statRel stat, List.sorted_insertionSort statRel stat,
    ?_, ?_, by decide, ?_⟩
  · intro i
    unfold rarityScores
    rw [rarityScoresAux_getElem?]
    simp
  · intro code hcode
    unfold rarityScoreOf rarityScores
    rw [lookup?_eq_none_iff, map_fst_rarityScoresAux]
    intro hmem
    exact hcode (((List.perm_insertionSort statRel stat).map Prod.fst).mem_iff.mp hmem)
  · intro n i hn
    have h2 : (2 : ℚ) ≤ (n : ℚ) := by exact_mod_cast hn
    have hden : ((n : ℚ) - 1) ≠ 0 := by intro hz; linarith
    field_simp

theorem claim_C1_witness :
    rarityScores [("A", 1), ("B", 2), ("C", 2)] = [("A", 100), ("B", 50), ("C", 0)]
    ∧ rarityScoreOf [("A", 1), ("B", 2), ("C", 2)] "Z" = none := by
  have h := claim_C1_rarity [("A", 1), ("B", 2), ("C", 2)] (by decide) (by decide) (by decide)
  exact ⟨h.2.2.2.2.1, h.2.2.2.1 "Z" (by decide)⟩

end GeoGrid
